import Mathlib

/-!
Verification development for the `os_gui` backend's script-execution and
output-streaming pipeline (`src/backend/main.py`, `src/backend/exec_env.py`).

Strings are modelled as `List Char`, byte strings as `List Nat` (each element
a byte value `< 256`).  External library calls (`yaml.safe_load`,
`json.dumps`, `shlex.split`) are parameters of the model; everything the
backend itself computes (`str.splitlines`, the remainder logic, UTF-8
decoding performed by `bytes.decode`, the marker state machine, argv
construction, the single-slot result cache) is modelled concretely.
-/

namespace OsGui

/-- Characters treated as line terminators by Python's `str.splitlines`. -/
def isLineBreak (c : Char) : Bool :=
  c = '\n' || c = '\r' || c = '\x0b' || c = '\x0c' ||
  c = '\x1c' || c = '\x1d' || c = '\x1e' || c = '\x85' ||
  c = '\u2028' || c = '\u2029'

/-- Prepend a character to the first line of a line list (starting a new
line when there is none). -/
def consFirst (c : Char) : List (List Char) → List (List Char)
  | [] => [[c]]
  | l :: ls => (c :: l) :: ls

/-- Model of Python's `str.splitlines(keepends=True)`: split into lines,
each keeping its terminator; `"\r\n"` counts as a single terminator. -/
def splitlines : List Char → List (List Char)
  | [] => []
  | c :: rest =>
    if c = '\r' then
      match rest with
      | d :: rest2 =>
        if d = '\n' then ['\r', '\n'] :: splitlines rest2
        else ['\r'] :: splitlines (d :: rest2)
      | [] => [['\r']]
    else if isLineBreak c then [c] :: splitlines rest
    else consFirst c (splitlines rest)

theorem consFirst_ne_nil (c : Char) (ls : List (List Char)) : consFirst c ls ≠ [] := by
  cases ls <;> simp [consFirst]

theorem splitlines_nil : splitlines [] = [] := rfl

theorem splitlines_crlf (rest : List Char) :
    splitlines ('\r' :: '\n' :: rest) = ['\r', '\n'] :: splitlines rest := by
  rw [splitlines.eq_def]
  simp

theorem splitlines_cr_cons (d : Char) (rest : List Char) (hd : d ≠ '\n') :
    splitlines ('\r' :: d :: rest) = ['\r'] :: splitlines (d :: rest) := by
  rw [splitlines.eq_def]
  simp [hd]

theorem splitlines_cr_nil : splitlines ['\r'] = [['\r']] := by
  rw [splitlines.eq_def]
  simp

theorem splitlines_brk (c : Char) (rest : List Char) (h1 : c ≠ '\r')
    (h2 : isLineBreak c = true) :
    splitlines (c :: rest) = [c] :: splitlines rest := by
  rw [splitlines.eq_def]
  simp [h1, h2]

theorem splitlines_chr (c : Char) (rest : List Char) (h1 : c ≠ '\r')
    (h2 : isLineBreak c = false) :
    splitlines (c :: rest) = consFirst c (splitlines rest) := by
  rw [splitlines.eq_def]
  simp [h1, h2]

theorem splitlines_ne_nil (a : List Char) (ha : a ≠ []) : splitlines a ≠ [] := by
  cases a with
  | nil => exact absurd rfl ha
  | cons c rest =>
    by_cases hc : c = '\r'
    · subst hc
      cases rest with
      | nil => simp [splitlines_cr_nil]
      | cons d rest2 =>
        by_cases hd : d = '\n'
        · subst hd; simp [splitlines_crlf]
        · simp [splitlines_cr_cons d rest2 hd]
    · cases h2 : isLineBreak c with
      | true => simp [splitlines_brk c rest hc h2]
      | false =>
        rw [splitlines_chr c rest hc h2]
        exact consFirst_ne_nil _ _

theorem dropLast_cons_ne {α : Type} (x : α) (l : List α) (h : l ≠ []) :
    (x :: l).dropLast = x :: l.dropLast := by
  cases l with
  | nil => exact absurd rfl h
  | cons y l2 => rfl

theorem getLast?_cons_ne {α : Type} (x : α) (l : List α) (h : l ≠ []) :
    (x :: l).getLast? = l.getLast? := by
  simpa using List.getLast?_append_of_ne_nil [x] (h : l ≠ [])

theorem dropLast_append_ne {α : Type} (l1 l2 : List α) (h : l2 ≠ []) :
    (l1 ++ l2).dropLast = l1 ++ l2.dropLast := by
  induction l1 with
  | nil => rfl
  | cons x l1 ih =>
    have hne : l1 ++ l2 ≠ [] := fun hE => h (List.append_eq_nil.mp hE).2
    rw [List.cons_append, dropLast_cons_ne x (l1 ++ l2) hne, ih, List.cons_append]

theorem consFirst_append (c : Char) (X Y : List (List Char)) (h : X ≠ []) :
    consFirst c (X ++ Y) = consFirst c X ++ Y := by
  cases X with
  | nil => exact absurd rfl h
  | cons l ls => rfl

/-- Every line produced by `splitlines` splits into exactly itself: lines
carry no internal terminator (apart from a `"\r"` immediately followed by
the line's final `"\n"`). -/
theorem splitlines_line (a : List Char) :
    ∀ l ∈ splitlines a, splitlines l = [l] := by
  induction a using splitlines.induct with
  | case1 =>
    intro l hl
    simp [splitlines_nil] at hl
  | case2 rest2 ih =>
    intro l hl
    rw [splitlines_crlf] at hl
    rcases List.mem_cons.mp hl with h | h
    · subst h; decide
    · exact ih l h
  | case3 d rest2 hd ih =>
    intro l hl
    rw [splitlines_cr_cons d rest2 hd] at hl
    rcases List.mem_cons.mp hl with h | h
    · subst h; decide
    · exact ih l h
  | case4 =>
    intro l hl
    rw [splitlines_cr_nil] at hl
    simp at hl
    subst hl; decide
  | case5 c rest hc hbrk ih =>
    intro l hl
    rw [splitlines_brk c rest hc hbrk] at hl
    rcases List.mem_cons.mp hl with h | h
    · subst h
      rw [splitlines_brk c [] hc hbrk, splitlines_nil]
    · exact ih l h
  | case6 c rest hc hbrk ih =>
    intro l hl
    have hbrk' : isLineBreak c = false := by simpa using hbrk
    rw [splitlines_chr c rest hc hbrk'] at hl
    cases hL : splitlines rest with
    | nil =>
      rw [hL] at hl
      simp [consFirst] at hl
      subst hl
      rw [splitlines_chr c [] hc hbrk', splitlines_nil]
      rfl
    | cons l0 ls =>
      rw [hL] at hl
      simp only [consFirst] at hl
      rcases List.mem_cons.mp hl with h | h
      · subst h
        have h0 : splitlines l0 = [l0] := ih l0 (by rw [hL]; simp)
        rw [splitlines_chr c l0 hc hbrk', h0]
        rfl
      · exact ih l (by rw [hL]; exact List.mem_cons_of_mem _ h)

/-- Splitting a concatenation: everything before the last line of `a` is
unaffected, and the last line of `a` recombines with the start of `b`. -/
theorem splitlines_append (a b : List Char) (ha : a ≠ []) :
    splitlines (a ++ b) =
      (splitlines a).dropLast ++ splitlines ((splitlines a).getLast?.getD [] ++ b) := by
  induction a using splitlines.induct with
  | case1 => exact absurd rfl ha
  | case2 rest2 ih =>
    by_cases h2 : rest2 = []
    · subst h2
      simp [splitlines_crlf, splitlines_nil]
    · have hne := splitlines_ne_nil rest2 h2
      rw [List.cons_append, List.cons_append, splitlines_crlf, splitlines_crlf, ih h2,
        dropLast_cons_ne _ _ hne, getLast?_cons_ne _ _ hne, List.cons_append]
  | case3 d rest2 hd ih =>
    have hcons : (d :: rest2) ≠ [] := by simp
    have hne := splitlines_ne_nil (d :: rest2) hcons
    rw [List.cons_append, List.cons_append, splitlines_cr_cons d (rest2 ++ b) hd,
      splitlines_cr_cons d rest2 hd, ← List.cons_append d rest2 b, ih hcons,
      dropLast_cons_ne _ _ hne, getLast?_cons_ne _ _ hne, List.cons_append]
  | case4 =>
    simp [splitlines_cr_nil]
  | case5 c rest hc hbrk ih =>
    by_cases h2 : rest = []
    · subst h2
      simp [splitlines_brk c _ hc hbrk, splitlines_nil]
    · have hne := splitlines_ne_nil rest h2
      rw [List.cons_append, splitlines_brk c _ hc hbrk, splitlines_brk c rest hc hbrk,
        ih h2, dropLast_cons_ne _ _ hne, getLast?_cons_ne _ _ hne, List.cons_append]
  | case6 c rest hc hbrk ih =>
    have hbrk' : isLineBreak c = false := by simpa using hbrk
    by_cases h2 : rest = []
    · subst h2
      simp [splitlines_chr c _ hc hbrk', splitlines_nil, consFirst]
    · rw [List.cons_append, splitlines_chr c _ hc hbrk', splitlines_chr c rest hc hbrk',
        ih h2]
      cases hL : splitlines rest with
      | nil => exact absurd hL (splitlines_ne_nil rest h2)
      | cons l0 ls =>
        cases ls with
        | nil =>
          simp only [consFirst, List.dropLast_single, List.getLast?_singleton,
            Option.getD_some, List.nil_append, List.dropLast_nil, List.cons_append]
          rw [splitlines_chr c (l0 ++ b) hc hbrk']
          rfl
        | cons l1 ls2 =>
          have hls : (l1 :: ls2) ≠ [] := by simp
          simp only [consFirst]
          rw [dropLast_cons_ne l0 (l1 :: ls2) hls,
            dropLast_cons_ne (c :: l0) (l1 :: ls2) hls,
            getLast?_cons_ne l0 (l1 :: ls2) hls,
            getLast?_cons_ne (c :: l0) (l1 :: ls2) hls]
          simp

/-- Splitting a concatenation whose first part ends in a newline
decomposes completely. -/
theorem splitlines_append_nl (a b : List Char) (ha : a.getLast? = some '\n') :
    splitlines (a ++ b) = splitlines a ++ splitlines b := by
  induction a using splitlines.induct with
  | case1 => simp at ha
  | case2 rest2 ih =>
    by_cases h2 : rest2 = []
    · subst h2
      rw [List.cons_append, List.cons_append, List.nil_append, splitlines_crlf, splitlines_crlf,
        splitlines_nil]
      rfl
    · have ha' : rest2.getLast? = some '\n' := by
        rwa [getLast?_cons_ne '\r' _ (by simp), getLast?_cons_ne '\n' _ h2] at ha
      rw [List.cons_append, List.cons_append, splitlines_crlf, splitlines_crlf, ih ha',
        List.cons_append]
  | case3 d rest2 hd ih =>
    have ha' : (d :: rest2).getLast? = some '\n' := by
      rwa [getLast?_cons_ne '\r' _ (by simp)] at ha
    rw [List.cons_append, List.cons_append, splitlines_cr_cons d (rest2 ++ b) hd,
      splitlines_cr_cons d rest2 hd, ← List.cons_append d rest2 b, ih ha', List.cons_append]
  | case4 => simp at ha
  | case5 c rest hc hbrk ih =>
    by_cases h2 : rest = []
    · subst h2
      have hcn : c = '\n' := by simpa using ha
      subst hcn
      rw [List.cons_append, List.nil_append, splitlines_brk '\n' b hc hbrk,
        splitlines_brk '\n' [] hc hbrk, splitlines_nil, List.cons_append, List.nil_append]
    · have ha' : rest.getLast? = some '\n' := by rwa [getLast?_cons_ne c _ h2] at ha
      rw [List.cons_append, splitlines_brk c _ hc hbrk, splitlines_brk c rest hc hbrk,
        ih ha', List.cons_append]
  | case6 c rest hc hbrk ih =>
    have hbrk' : isLineBreak c = false := by simpa using hbrk
    by_cases h2 : rest = []
    · subst h2
      have hcn : c = '\n' := by simpa using ha
      subst hcn
      simp [isLineBreak] at hbrk'
    · have ha' : rest.getLast? = some '\n' := by rwa [getLast?_cons_ne c _ h2] at ha
      rw [List.cons_append, splitlines_chr c _ hc hbrk', splitlines_chr c rest hc hbrk',
        ih ha', consFirst_append c _ _ (splitlines_ne_nil rest h2)]

/-- The remainder-popping step of the demultiplexer
(`main.py`, `stream_process_output`, lines 792-797 / 815-820):
`lines = combined.splitlines(keepends=True)`, and when the final line does
not end with `"\n"` it is popped and held as the new remainder. Returns
(lines kept for processing, remainder). -/
def popRemainder (lines : List (List Char)) : List (List Char) × List Char :=
  match lines.getLast? with
  | none => ([], [])
  | some lst => if lst.getLast? = some '\n' then (lines, []) else (lines.dropLast, lst)

/-- One bounded read of the demultiplexer on one stream: the unconsumed
remainder is prefixed to the newly decoded chunk, split into lines, and a
trailing unterminated fragment is held back. -/
def feedChunk (r chunk : List Char) : List (List Char) × List Char :=
  popRemainder (splitlines (r ++ chunk))

/-- Feeding a sequence of chunks, accumulating the emitted logical lines
and threading the remainder. -/
def feedAll (r : List Char) : List (List Char) → List (List Char) × List Char
  | [] => ([], r)
  | c :: cs =>
    let p := feedChunk r c
    let q := feedAll p.2 cs
    (p.1 ++ q.1, q.2)

theorem popRemainder_append (L M : List (List Char)) (hM : M ≠ []) :
    popRemainder (L ++ M) = (L ++ (popRemainder M).1, (popRemainder M).2) := by
  obtain ⟨g, hg⟩ : ∃ g, M.getLast? = some g :=
    ⟨M.getLast hM, List.getLast?_eq_getLast_of_ne_nil hM⟩
  unfold popRemainder
  rw [List.getLast?_append_of_ne_nil L hM, hg]
  by_cases h : g.getLast? = some '\n'
  · simp [h]
  · simp [h, dropLast_append_ne L M hM]

/-- Composing two reads is the same as one read of the concatenation. -/
theorem feedChunk_comp (r c1 c2 : List Char) :
    feedChunk r (c1 ++ c2) =
      ((feedChunk r c1).1 ++ (feedChunk (feedChunk r c1).2 c2).1,
       (feedChunk (feedChunk r c1).2 c2).2) := by
  by_cases hA : r ++ c1 = []
  · have hr : r = [] := (List.append_eq_nil.mp hA).1
    have hc : c1 = [] := (List.append_eq_nil.mp hA).2
    subst hr; subst hc
    simp [feedChunk, popRemainder, splitlines_nil]
  · have hL : splitlines (r ++ c1) ≠ [] := splitlines_ne_nil _ hA
    obtain ⟨g, hg⟩ : ∃ g, (splitlines (r ++ c1)).getLast? = some g :=
      ⟨_, List.getLast?_eq_getLast_of_ne_nil hL⟩
    have hgmem : g ∈ splitlines (r ++ c1) := List.mem_of_mem_getLast? (by simp [hg])
    have hgline : splitlines g = [g] := splitlines_line (r ++ c1) g hgmem
    have hgne : g ≠ [] := by
      intro h
      rw [h, splitlines_nil] at hgline
      exact absurd hgline (by simp)
    have hsplit : splitlines (r ++ (c1 ++ c2)) =
        (splitlines (r ++ c1)).dropLast ++ splitlines (g ++ c2) := by
      have h := splitlines_append (r ++ c1) c2 hA
      rw [hg] at h
      rw [← List.append_assoc]
      simpa using h
    by_cases hnl : g.getLast? = some '\n'
    · have h1 : feedChunk r c1 = (splitlines (r ++ c1), []) := by
        unfold feedChunk popRemainder
        rw [hg]
        simp [hnl]
      have hgb : splitlines (g ++ c2) = [g] ++ splitlines c2 := by
        rw [splitlines_append_nl g c2 hnl, hgline]
      have hLL : (splitlines (r ++ c1)).dropLast ++ [g] = splitlines (r ++ c1) :=
        List.dropLast_append_getLast? g (by simp [hg])
      rw [h1]
      by_cases hc2 : c2 = []
      · subst hc2
        unfold feedChunk
        rw [hsplit, hgb]
        simp only [splitlines_nil, List.append_nil, ← List.append_assoc, hLL]
        unfold popRemainder
        rw [hg]
        simp [hnl, popRemainder]
      · have hM : splitlines c2 ≠ [] := splitlines_ne_nil c2 hc2
        unfold feedChunk
        rw [hsplit, hgb, ← List.append_assoc, hLL, List.nil_append,
          popRemainder_append _ _ hM]
    · have h1 : feedChunk r c1 = ((splitlines (r ++ c1)).dropLast, g) := by
        unfold feedChunk popRemainder
        rw [hg]
        simp [hnl]
      have hM : splitlines (g ++ c2) ≠ [] :=
        splitlines_ne_nil _ (by simp [hgne])
      rw [h1]
      unfold feedChunk
      rw [hsplit, popRemainder_append _ _ hM]

/-- Feeding one chunk and then the rest equals one read of the whole. -/
theorem feedAll_cons_join (cs : List (List Char)) :
    ∀ r c, feedAll r (c :: cs) = feedChunk r (c ++ cs.flatten) := by
  induction cs with
  | nil =>
    intro r c
    simp [feedAll, feedChunk]
  | cons c2 cs' ih =>
    intro r c
    have hcomp := feedChunk_comp r c (c2 ++ cs'.flatten)
    calc feedAll r (c :: c2 :: cs')
        = ((feedChunk r c).1 ++ (feedAll (feedChunk r c).2 (c2 :: cs')).1,
           (feedAll (feedChunk r c).2 (c2 :: cs')).2) := by
          simp [feedAll]
      _ = ((feedChunk r c).1 ++ (feedChunk (feedChunk r c).2 (c2 ++ cs'.flatten)).1,
           (feedChunk (feedChunk r c).2 (c2 ++ cs'.flatten)).2) := by
          rw [ih]
      _ = feedChunk r (c ++ (c2 ++ cs'.flatten)) := hcomp.symm
      _ = feedChunk r (c ++ (c2 :: cs').flatten) := by
          simp [List.flatten]

/-- State of the incremental strict UTF-8 decoder modelling Python's
`bytes.decode()`: `need` continuation bytes are still expected for the code
point accumulated in `cp`; `mn` is the smallest code point the current
sequence may legally produce (overlong rejection); `acc` holds the decoded
characters in reverse order. -/
structure DecSt where
  need : Nat
  cp : Nat
  mn : Nat
  acc : List Char
deriving DecidableEq

def decInit : DecSt := ⟨0, 0, 0, []⟩

def isCont (b : Nat) : Bool := 128 ≤ b && b < 192

def pushCp (st : DecSt) (cp : Nat) : DecSt := ⟨0, 0, 0, Char.ofNat cp :: st.acc⟩

/-- One byte of strict UTF-8 decoding; `none` is a raised
`UnicodeDecodeError`. -/
def decByte (st : Option DecSt) (b : Nat) : Option DecSt :=
  match st with
  | none => none
  | some st =>
    if st.need = 0 then
      if b < 128 then some (pushCp st b)
      else if b < 194 then none
      else if b < 224 then some ⟨1, b - 192, 128, st.acc⟩
      else if b < 240 then some ⟨2, b - 224, 2048, st.acc⟩
      else if b < 245 then some ⟨3, b - 240, 65536, st.acc⟩
      else none
    else
      if isCont b then
        let cp := st.cp * 64 + (b - 128)
        if st.need = 1 then
          if st.mn ≤ cp ∧ ¬(55296 ≤ cp ∧ cp < 57344) ∧ cp < 1114112 then
            some (pushCp st cp)
          else none
        else some ⟨st.need - 1, cp, st.mn, st.acc⟩
      else none

def decodeRun (bs : List Nat) : Option DecSt := bs.foldl decByte (some decInit)

/-- Model of Python `bytes.decode()` (strict UTF-8): fails on malformed or
incomplete sequences. -/
def decodeUtf8 (bs : List Nat) : Option (List Char) :=
  match decodeRun bs with
  | none => none
  | some st => if st.need = 0 then some st.acc.reverse else none

/-- Relation between decoder states that differ only by a fixed suffix of
already-decoded characters. -/
def decRel (x : List Char) : Option DecSt → Option DecSt → Prop
  | none, none => True
  | some s, some t =>
      s.need = t.need ∧ (s.need ≠ 0 → s.cp = t.cp ∧ s.mn = t.mn) ∧ s.acc = t.acc ++ x
  | _, _ => False

theorem decByte_rel (x : List Char) (s? t? : Option DecSt) (b : Nat)
    (h : decRel x s? t?) : decRel x (decByte s? b) (decByte t? b) := by
  cases s? with
  | none =>
    cases t? with
    | none => simpa [decByte] using h
    | some t => exact absurd h (by simp [decRel])
  | some s =>
    cases t? with
    | none => exact absurd h (by simp [decRel])
    | some t =>
      obtain ⟨hneed, hcpmn, hacc⟩ := h
      by_cases h0 : s.need = 0
      · have h0t : t.need = 0 := hneed ▸ h0
        simp only [decByte, h0, h0t, if_true]
        split_ifs with hb1 hb2 hb3 hb4 hb5
        · exact ⟨rfl, by simp [pushCp], by simp [pushCp, hacc]⟩
        · trivial
        · exact ⟨rfl, fun _ => ⟨rfl, rfl⟩, hacc⟩
        · exact ⟨rfl, fun _ => ⟨rfl, rfl⟩, hacc⟩
        · exact ⟨rfl, fun _ => ⟨rfl, rfl⟩, hacc⟩
        · trivial
      · have h0t : t.need ≠ 0 := hneed ▸ h0
        obtain ⟨hcp, hmn⟩ := hcpmn h0
        simp only [decByte, h0, h0t, if_false, if_neg h0, if_neg h0t]
        by_cases hc : isCont b
        · simp only [hc, if_true]
          rw [hcp, hmn, hneed]
          by_cases h1 : t.need = 1
          · simp only [h1, if_true]
            split_ifs with hv
            · exact ⟨rfl, by simp [pushCp], by simp [pushCp, hacc]⟩
            · trivial
          · simp only [h1, if_false]
            exact ⟨rfl, fun _ => ⟨rfl, rfl⟩, hacc⟩
        · simp only [hc, if_false]
          trivial

theorem foldl_decByte_rel (x : List Char) (bs : List Nat) :
    ∀ s? t?, decRel x s? t? →
      decRel x (bs.foldl decByte s?) (bs.foldl decByte t?) := by
  induction bs with
  | nil => intro s? t? h; exact h
  | cons b bs ih =>
    intro s? t? h
    exact ih _ _ (decByte_rel x s? t? b h)

/-- Decoding a concatenation when the first part decodes completely:
the results concatenate (UTF-8 decoding is prefix-compositional at
character boundaries). -/
theorem decodeUtf8_append (a b : List Nat) (s : List Char)
    (h : decodeUtf8 a = some s) :
    decodeUtf8 (a ++ b) = (decodeUtf8 b).map (fun t => s ++ t) := by
  unfold decodeUtf8 at h
  cases hra : decodeRun a with
  | none => rw [hra] at h; exact absurd h (by simp)
  | some sa =>
    rw [hra] at h
    have h2 : (if sa.need = 0 then some sa.acc.reverse else none) = some s := h
    by_cases hn : sa.need = 0
    · rw [if_pos hn] at h2
      have hs : s = sa.acc.reverse := by
        injection h2 with h'
        exact h'.symm
      have hrel : decRel sa.acc (some sa) (some decInit) :=
        ⟨by simp [decInit, hn], fun hne => absurd hn hne, by simp [decInit]⟩
      have hfold := foldl_decByte_rel sa.acc b (some sa) (some decInit) hrel
      have hab : decodeRun (a ++ b) = b.foldl decByte (some sa) := by
        unfold decodeRun
        rw [List.foldl_append]
        unfold decodeRun at hra
        rw [hra]
      cases hrb : b.foldl decByte (some decInit) with
      | none =>
        rw [hrb] at hfold
        cases hsab : b.foldl decByte (some sa) with
        | none =>
          have hL : decodeUtf8 (a ++ b) = none := by
            unfold decodeUtf8
            rw [hab, hsab]
          have hR : decodeUtf8 b = none := by
            unfold decodeUtf8 decodeRun
            rw [hrb]
          rw [hL, hR]
          rfl
        | some s' => rw [hsab] at hfold; exact absurd hfold (by simp [decRel])
      | some tb =>
        rw [hrb] at hfold
        cases hsab : b.foldl decByte (some sa) with
        | none => rw [hsab] at hfold; exact absurd hfold (by simp [decRel])
        | some s' =>
          rw [hsab] at hfold
          obtain ⟨hneed, _, hacc⟩ := hfold
          have hL : decodeUtf8 (a ++ b) =
              if s'.need = 0 then some s'.acc.reverse else none := by
            unfold decodeUtf8
            rw [hab, hsab]
          have hR : decodeUtf8 b =
              if tb.need = 0 then some tb.acc.reverse else none := by
            unfold decodeUtf8 decodeRun
            rw [hrb]
          rw [hL, hR]
          by_cases htn : tb.need = 0
          · rw [if_pos htn, if_pos (hneed ▸ htn)]
            simp [hacc, hs]
          · rw [if_neg htn, if_neg (hneed ▸ htn)]
            rfl
    · rw [if_neg hn] at h2
      exact absurd h2 (by simp)

/-- Byte-level input processing of one stream of the demultiplexer: each
bounded read is decoded with `bytes.decode()` and fed through the
remainder-splitting logic; `none` records that some read raised
`UnicodeDecodeError` (caught by the streaming loop's exception handler, so
no line sequence is produced). Returns the emitted logical lines and the
final remainder. -/
def feedBytes (r : List Char) : List (List Nat) → Option (List (List Char) × List Char)
  | [] => some ([], r)
  | c :: cs =>
    match decodeUtf8 c with
    | none => none
    | some s =>
      let p := feedChunk r s
      match feedBytes p.2 cs with
      | none => none
      | some q => some (p.1 ++ q.1, q.2)

theorem decodeUtf8_nil : decodeUtf8 [] = some [] := rfl

theorem feedBytes_sound (bs : List (List Nat))
    (h : ∀ c ∈ bs, (decodeUtf8 c).isSome) :
    ∃ ss : List (List Char),
      decodeUtf8 bs.flatten = some ss.flatten ∧
      ∀ r, feedBytes r bs = some (feedAll r ss) := by
  induction bs with
  | nil =>
    refine ⟨[], by simp [decodeUtf8_nil], ?_⟩
    intro r
    simp [feedBytes, feedAll]
  | cons c cs ih =>
    have hc : (decodeUtf8 c).isSome := h c (by simp)
    obtain ⟨s, hs⟩ := Option.isSome_iff_exists.mp hc
    obtain ⟨ss, hflat, hfeed⟩ := ih (fun c' hc' => h c' (by simp [hc']))
    refine ⟨s :: ss, ?_, ?_⟩
    · have := decodeUtf8_append c cs.flatten s hs
      rw [List.flatten_cons, this, hflat]
      rfl
    · intro r
      rw [feedBytes, hs]
      simp only
      rw [hfeed (feedChunk r s).2]
      simp [feedAll]

/-- Events pushed to the consumer stream (`("output", …)`, `("error", …)`
queue entries and the final `done` SSE event). -/
inductive Event where
  | output (text : List Char)
  | error (text : List Char)
  | done
deriving DecidableEq

/-- The in-band marker token (`"--YAML--" in line`). -/
def yamlMarker : List Char := "--YAML--".toList

/-- Substring containment, modelling Python's `in` operator on strings. -/
def containsSub (m : List Char) : List Char → Bool
  | [] => m.isEmpty
  | c :: t => m.isPrefixOf (c :: t) || containsSub m t

/-- The text after the first occurrence of `m`, modelling
`line.split(m, 1)[1]` for a line that contains `m`. -/
def afterMarker (m : List Char) : List Char → List Char
  | [] => []
  | c :: t => if m.isPrefixOf (c :: t) then (c :: t).drop m.length else afterMarker m t

/-- The per-execution demultiplexer state of `stream_process_output`
(`yaml_started`, `yaml_buffer`, `text_buffer`, plus the events put on the
output queue, in order). -/
structure StreamSt where
  yamlStarted : Bool
  yamlBuffer : List Char
  textBuffer : List Char
  events : List Event
deriving DecidableEq

def streamInit : StreamSt := ⟨false, [], [], []⟩

/-- Processing of a single stdout logical line
(`main.py`, lines 799-809): in payload mode append to the buffer;
otherwise a line containing the marker switches to payload mode and only
the text after the marker is buffered; otherwise the line is emitted as an
`output` event and appended to the text buffer. -/
def procStdoutLine (st : StreamSt) (line : List Char) : StreamSt :=
  if st.yamlStarted then
    { st with yamlBuffer := st.yamlBuffer ++ line }
  else if containsSub yamlMarker line then
    { st with yamlStarted := true,
              yamlBuffer := st.yamlBuffer ++ afterMarker yamlMarker line }
  else
    { st with events := st.events ++ [Event.output line],
              textBuffer := st.textBuffer ++ line }

def procStdoutLines (st : StreamSt) (lines : List (List Char)) : StreamSt :=
  lines.foldl procStdoutLine st

/-- Every stderr line is emitted as an `error` event, with no marker
detection (`main.py`, lines 822-824). -/
def procStderrLines (st : StreamSt) (lines : List (List Char)) : StreamSt :=
  lines.foldl (fun s l => { s with events := s.events ++ [Event.error l] }) st

theorem procStdoutLines_started (ls : List (List Char)) :
    ∀ st : StreamSt, st.yamlStarted = true →
      procStdoutLines st ls = { st with yamlBuffer := st.yamlBuffer ++ ls.flatten } := by
  induction ls with
  | nil => intro st h; simp [procStdoutLines]
  | cons l ls ih =>
    intro st h
    rw [procStdoutLines, List.foldl_cons]
    rw [show procStdoutLine st l = { st with yamlBuffer := st.yamlBuffer ++ l } by
      simp [procStdoutLine, h]]
    rw [show List.foldl procStdoutLine { st with yamlBuffer := st.yamlBuffer ++ l } ls =
        procStdoutLines { st with yamlBuffer := st.yamlBuffer ++ l } ls from rfl]
    rw [ih _ (by simp [h])]
    simp [h]

theorem procStdoutLines_clean (ls : List (List Char)) :
    ∀ st : StreamSt, st.yamlStarted = false →
      (∀ l ∈ ls, containsSub yamlMarker l = false) →
      procStdoutLines st ls =
        { st with events := st.events ++ ls.map Event.output,
                  textBuffer := st.textBuffer ++ ls.flatten } := by
  induction ls with
  | nil => intro st h _; simp [procStdoutLines]
  | cons l ls ih =>
    intro st h hm
    rw [procStdoutLines, List.foldl_cons]
    rw [show procStdoutLine st l =
        { st with events := st.events ++ [Event.output l],
                  textBuffer := st.textBuffer ++ l } by
      simp [procStdoutLine, h, hm l (by simp)]]
    rw [show List.foldl procStdoutLine
        { st with events := st.events ++ [Event.output l],
                  textBuffer := st.textBuffer ++ l } ls =
        procStdoutLines
        { st with events := st.events ++ [Event.output l],
                  textBuffer := st.textBuffer ++ l } ls from rfl]
    rw [ih _ (by simp [h]) (fun l' hl' => hm l' (by simp [hl']))]
    simp [h]

/-- Process-control actions issued by the backend during an execution. -/
inductive PAction where
  | terminate     -- `process.terminate()` (signal to the process only)
  | killpgTerm    -- `os.killpg(..., SIGTERM)` (process group)
  | waitBounded   -- `process.wait(timeout=…)`
  | killpgKill    -- `os.killpg(..., SIGKILL)` (process group)
deriving DecidableEq

/-- One poll cycle of the streaming loop: whether the client was observed
disconnected at the top of the cycle, and the bytes returned by the two
bounded `read(1024)` calls (empty list = no data this cycle). -/
structure Cycle where
  disconnected : Bool
  stdoutChunk : List Nat
  stderrChunk : List Nat
deriving DecidableEq

/-- Observable behavior of the spawned process: the poll-cycle trace up to
end of both streams, and the exit code reported by `process.wait()`. -/
structure RunBehavior where
  cycles : List Cycle
  exitCode : Int
deriving DecidableEq

/-- The full loop state of `stream_process_output`: the two per-stream
remainders plus the marker state machine. -/
structure LoopSt where
  stdoutRem : List Char
  stderrRem : List Char
  sm : StreamSt
  actions : List PAction
deriving DecidableEq

def loopInit : LoopSt := ⟨[], [], streamInit, []⟩

/-- How the streaming loop ended: reached end-of-both-streams normally,
broke out on client disconnect, or aborted via the exception handler. -/
inductive LoopExit where
  | normal
  | cancelled
  | aborted
deriving DecidableEq

inductive CycleRes where
  | next (s : LoopSt)
  | stop (s : LoopSt) (e : LoopExit)

/-- The event text for an exception caught by the streaming loop's handler
(`f"Error: …"`); the model fixes the message of the only exception it
models, a `UnicodeDecodeError` from `bytes.decode()`. -/
def streamErrorText : List Char := "Error: UnicodeDecodeError".toList

/-- One bounded read on one stream (`main.py`, lines 788-808 / 811-824):
skip when no data, otherwise decode, prefix the held remainder, split into
lines, hold back an unterminated trailing fragment, and process the lines.
`none` models a raised `UnicodeDecodeError`. -/
def readStream (rem : List Char) (chunk : List Nat)
    (proc : StreamSt → List (List Char) → StreamSt) (sm : StreamSt) :
    Option (List Char × StreamSt) :=
  if chunk.isEmpty then some (rem, sm)
  else
    match decodeUtf8 chunk with
    | none => none
    | some s =>
      let p := feedChunk rem s
      some (p.2, proc sm p.1)

/-- One iteration of the `while True` loop: disconnect check (which
terminates the process — not its group — and breaks), then the stdout
read, then the stderr read; a decode failure is caught by the handler,
which enqueues an `error` event and ends the loop. -/
def runCycle (s : LoopSt) (c : Cycle) : CycleRes :=
  if c.disconnected then
    CycleRes.stop { s with actions := s.actions ++ [PAction.terminate] } LoopExit.cancelled
  else
    match readStream s.stdoutRem c.stdoutChunk procStdoutLines s.sm with
    | none =>
      CycleRes.stop
        { s with sm := { s.sm with events := s.sm.events ++ [Event.error streamErrorText] } }
        LoopExit.aborted
    | some (rem1, sm1) =>
      match readStream s.stderrRem c.stderrChunk procStderrLines sm1 with
      | none =>
        CycleRes.stop
          { s with stdoutRem := rem1,
                   sm := { sm1 with events := sm1.events ++ [Event.error streamErrorText] } }
          LoopExit.aborted
      | some (rem2, sm2) =>
        CycleRes.next { s with stdoutRem := rem1, stderrRem := rem2, sm := sm2 }

def runCycles (s : LoopSt) : List Cycle → LoopSt × LoopExit
  | [] => (s, LoopExit.normal)
  | c :: cs =>
    match runCycle s c with
    | CycleRes.next s2 => runCycles s2 cs
    | CycleRes.stop s2 e => (s2, e)

def exitCodeMsg (rc : Int) : List Char :=
  ("Process exited with code " ++ toString rc).toList

/-- The end-of-stream branch (`main.py`, lines 826-845): flush the stdout
remainder (to the payload buffer when accumulating, else as an `output`
event), flush the stderr remainder as an `error` event, then enqueue an
`error` event carrying the exit code when it is non-zero. -/
def eofFlush (s : LoopSt) (rc : Int) : LoopSt :=
  let s1 :=
    if s.stdoutRem.isEmpty then s
    else if s.sm.yamlStarted then
      { s with sm := { s.sm with yamlBuffer := s.sm.yamlBuffer ++ s.stdoutRem } }
    else
      { s with sm := { s.sm with events := s.sm.events ++ [Event.output s.stdoutRem],
                                 textBuffer := s.sm.textBuffer ++ s.stdoutRem } }
  let s2 :=
    if s.stderrRem.isEmpty then s1
    else { s1 with sm := { s1.sm with events := s1.sm.events ++ [Event.error s.stderrRem] } }
  if rc ≠ 0 then
    { s2 with sm := { s2.sm with events := s2.sm.events ++ [Event.error (exitCodeMsg rc)] } }
  else s2

/-- The whole streaming task on a given process behavior. -/
def runStream (cycles : List Cycle) (rc : Int) : LoopSt × LoopExit :=
  match runCycles loopInit cycles with
  | (s, LoopExit.normal) => (eofFlush s rc, LoopExit.normal)
  | other => other

/-- The streaming task's return value `(text_buffer, yaml_buffer or None)`
(`main.py`, lines 861-869), produced on every exit of the loop. -/
def streamResult (s : LoopSt) : List Char × Option (List Char) :=
  (s.sm.textBuffer, if s.sm.yamlStarted then some s.sm.yamlBuffer else none)

/-- Behavior of the external libraries used by the execution path,
abstracted as parameters of the model: `yaml.safe_load` (with `none`
modelling a raised parse error), `json.dumps`, the Python empty dict that
`ExecEnv.get_json` returns when no result is cached, and `shlex.split`. -/
structure Ext (J : Type) where
  safeLoad : List Char → Option J
  dumps : J → List Char
  emptyObj : J
  shlexSplit : List Char → List (List Char)

/-- `exec_env.ExecResult`: one cached execution result. -/
structure ExecResult (J : Type) where
  rtype : List Char
  command : List Char
  args : Option (List Char)
  json_result : J
  text_result : List Char
deriving DecidableEq

/-- `exec_env.ExecEnv`: the process-wide result store. -/
structure ExecEnv (J : Type) where
  results : List (ExecResult J)
deriving DecidableEq

/-- `ExecEnv.add_result`: replaces the whole store with a one-element
list. -/
def ExecEnv.addResult {J : Type} (_env : ExecEnv J) (r : ExecResult J) : ExecEnv J :=
  ⟨[r]⟩

/-- `ExecEnv.get_json`: the cached `json_result`, or the empty dict. -/
def ExecEnv.getJson {J : Type} (env : ExecEnv J) (ext : Ext J) : J :=
  match env.results with
  | r :: _ => r.json_result
  | [] => ext.emptyObj

/-- `ExecEnv.get_text`: the cached `text_result`, or the empty string. -/
def ExecEnv.getText {J : Type} (env : ExecEnv J) : List Char :=
  match env.results with
  | r :: _ => r.text_result
  | [] => []

/-- A script row as returned by `database.get_script_by_name`. -/
structure DbScript where
  body : List Char
  accepts_reference : Bool
deriving DecidableEq

/-- The `ScriptExecution` request body. -/
structure ScriptExecution where
  name : List Char
  args : Option (List Char)
  working_dir : Option (List Char)
deriving DecidableEq

/-- Environment facts outside the backend's control for one request:
the database lookup result, whether the temp-file write, the chmod and the
process spawn succeed, and the spawned process's observable behavior. -/
structure World where
  dbScript : Option DbScript
  writeOk : Bool
  chmodOk : Bool
  spawnOk : Bool
  run : RunBehavior
deriving DecidableEq

/-- Python `str.strip()` whitespace (the ASCII subset). -/
def pyIsSpace (c : Char) : Bool :=
  c = ' ' || c = '\t' || c = '\n' || c = '\r' || c = '\x0b' || c = '\x0c'

def pyStrip (s : List Char) : List Char :=
  ((s.dropWhile pyIsSpace).reverse.dropWhile pyIsSpace).reverse

/-- The language sniff of `execute_script_stream` (`main.py`, lines
689-695): the request is treated as a Python script when the name ends in
`.py` or the stripped body starts with a recognized interpreter marker
or an import-style statement. -/
def isPythonScript (name body : List Char) : Bool :=
  ".py".toList.isSuffixOf name ||
  "#!/usr/bin/env python".toList.isPrefixOf (pyStrip body) ||
  "#!/usr/bin/python".toList.isPrefixOf (pyStrip body) ||
  "import ".toList.isPrefixOf (pyStrip body) ||
  "from ".toList.isPrefixOf (pyStrip body)

/-- The temp script file path (`main.py`, lines 685 and 704-705):
`/tmp/script_{name}.sh`, with a further `.py` suffix for Python scripts. -/
def scriptPathOf (name body : List Char) : List Char :=
  let base := "/tmp/script_".toList ++ name ++ ".sh".toList
  if isPythonScript name body then base ++ ".py".toList else base

def hexDigitChar (n : Nat) : Char :=
  if n < 10 then Char.ofNat (48 + n) else Char.ofNat (87 + n)

/-- Two lowercase hex digits for one byte, as produced by
`bytes.hex()`. -/
def byteHex (b : Nat) : List Char := [hexDigitChar (b / 16 % 16), hexDigitChar (b % 16)]

def bytesHex (bs : List Nat) : List Char := (bs.map byteHex).flatten

/-- UTF-8 encoding of one character (`str.encode("utf-8")`). -/
def encodeChar (c : Char) : List Nat :=
  let n := c.toNat
  if n < 128 then [n]
  else if n < 2048 then [192 + n / 64, 128 + n % 64]
  else if n < 65536 then [224 + n / 4096, 128 + n / 64 % 64, 128 + n % 64]
  else [240 + n / 262144, 128 + n / 4096 % 64, 128 + n / 64 % 64, 128 + n % 64]

def utf8Encode (s : List Char) : List Nat := (s.map encodeChar).flatten

def flagToken : List Char := "--reference".toList

/-- The second injected argv token:
`json.dumps(exec_env.get_json()).encode("utf-8").hex()`. -/
def referenceToken {J : Type} (ext : Ext J) (env : ExecEnv J) : List Char :=
  bytesHex (utf8Encode (ext.dumps (env.getJson ext)))

/-- The argv list built by `execute_script_stream` (`main.py`, lines
742-754): interpreter and script path, then the shlex-split user
arguments, then — for scripts accepting a reference — the flag token and
the hex-encoded cached payload. -/
def buildCmd {J : Type} (ext : Ext J) (env : ExecEnv J) (req : ScriptExecution)
    (s : DbScript) : List (List Char) :=
  let isPy := isPythonScript req.name s.body
  let path := scriptPathOf req.name s.body
  let base := if isPy then ["/usr/bin/python3".toList, path]
              else ["/bin/bash".toList, path]
  let withArgs := base ++ (match req.args with
    | some a => ext.shlexSplit a
    | none => [])
  if s.accepts_reference then withArgs ++ [flagToken, referenceToken ext env]
  else withArgs

/-- What the caller of `/api/fs/execute-script-stream` receives: an HTTP
error response (a raised `HTTPException`), or the SSE event stream. -/
inductive ExecResponse where
  | httpError (code : Nat)
  | stream (events : List Event)
deriving DecidableEq

/-- The observable outcome of one request: the response, whether a process
was spawned, whether the temp script file still exists afterwards, the
temp path used, the resulting cache state, and the process-control actions
issued. -/
structure Outcome (J : Type) where
  response : ExecResponse
  spawned : Bool
  fileExists : Bool
  tempPath : Option (List Char)
  env : ExecEnv J
  actions : List PAction

/-- The post-stream phase of `execute_script_stream` (`main.py`, lines
860-882): the stream task returns `(text_buffer, yaml_buffer or None)`;
when a payload was accumulated it is passed to `yaml.safe_load` — a parse
exception propagates out of the endpoint as an HTTP error before any event
is delivered, while success replaces the single-slot cache; otherwise the
cache is untouched; on the non-raising paths the response is the SSE
stream of the queued events followed by the single `done`. -/
def finalizeExec {J : Type} (ext : Ext J) (env : ExecEnv J) (req : ScriptExecution)
    (path : List Char) (ls : LoopSt) : Outcome J :=
  match (streamResult ls).2 with
  | some y =>
    match ext.safeLoad y with
    | none =>
      ⟨ExecResponse.httpError 500, true, false, some path, env, ls.actions⟩
    | some v =>
      let r : ExecResult J := ⟨"json".toList, req.name, req.args, v, (streamResult ls).1⟩
      ⟨ExecResponse.stream (ls.sm.events ++ [Event.done]), true, false, some path,
        env.addResult r, ls.actions⟩
  | none =>
    ⟨ExecResponse.stream (ls.sm.events ++ [Event.done]), true, false, some path,
      env, ls.actions⟩

theorem finalizeExec_no_yaml {J : Type} (ext : Ext J) (env : ExecEnv J)
    (req : ScriptExecution) (path : List Char) (ls : LoopSt)
    (h : ls.sm.yamlStarted = false) :
    finalizeExec ext env req path ls =
      ⟨ExecResponse.stream (ls.sm.events ++ [Event.done]), true, false, some path,
        env, ls.actions⟩ := by
  simp [finalizeExec, streamResult, h]

theorem finalizeExec_parse_fail {J : Type} (ext : Ext J) (env : ExecEnv J)
    (req : ScriptExecution) (path : List Char) (ls : LoopSt)
    (h : ls.sm.yamlStarted = true) (h2 : ext.safeLoad ls.sm.yamlBuffer = none) :
    finalizeExec ext env req path ls =
      ⟨ExecResponse.httpError 500, true, false, some path, env, ls.actions⟩ := by
  simp [finalizeExec, streamResult, h, h2]

theorem finalizeExec_parse_ok {J : Type} (ext : Ext J) (env : ExecEnv J)
    (req : ScriptExecution) (path : List Char) (ls : LoopSt) (v : J)
    (h : ls.sm.yamlStarted = true) (h2 : ext.safeLoad ls.sm.yamlBuffer = some v) :
    finalizeExec ext env req path ls =
      ⟨ExecResponse.stream (ls.sm.events ++ [Event.done]), true, false, some path,
        env.addResult ⟨"json".toList, req.name, req.args, v, ls.sm.textBuffer⟩,
        ls.actions⟩ := by
  simp [finalizeExec, streamResult, h, h2]

/-- Model of `execute_script_stream` (`main.py`, lines 666-938): database
lookup (a miss raises, reported as an HTTP error — no event stream), temp
file write, chmod, argv construction with reference injection, spawn, the
streaming loop, temp-file removal in the stream task's `finally`, then
`yaml.safe_load` of the accumulated payload (an exception propagates as an
HTTP error; success replaces the single-slot cache), and finally the SSE
stream: the queued events followed by exactly one `done`. -/
def executeScriptStream {J : Type} (ext : Ext J) (env : ExecEnv J)
    (req : ScriptExecution) (w : World) : Outcome J :=
  match w.dbScript with
  | none => ⟨ExecResponse.httpError 500, false, false, none, env, []⟩
  | some s =>
    let path := scriptPathOf req.name s.body
    if ¬ w.writeOk then
      ⟨ExecResponse.httpError 500, false, false, some path, env, []⟩
    else if ¬ w.chmodOk then
      ⟨ExecResponse.httpError 500, false, true, some path, env, []⟩
    else if ¬ w.spawnOk then
      ⟨ExecResponse.httpError 500, false, true, some path, env, []⟩
    else
      let _cmd := buildCmd ext env req s
      finalizeExec ext env req path (runStream w.run.cycles w.run.exitCode).1

/-- No element of the event list is the terminal `done` event. -/
def doneFree (evs : List Event) : Prop := ∀ e ∈ evs, e ≠ Event.done

theorem doneFree_append (a b : List Event) (ha : doneFree a) (hb : doneFree b) :
    doneFree (a ++ b) := by
  intro e he
  rcases List.mem_append.mp he with h | h
  · exact ha e h
  · exact hb e h

theorem doneFree_output (l : List Char) : doneFree [Event.output l] := by
  intro e he
  simp at he
  simp [he]

theorem doneFree_error (l : List Char) : doneFree [Event.error l] := by
  intro e he
  simp at he
  simp [he]

theorem procStdoutLine_doneFree (st : StreamSt) (l : List Char)
    (h : doneFree st.events) : doneFree (procStdoutLine st l).events := by
  unfold procStdoutLine
  split_ifs with h1 h2
  · exact h
  · exact h
  · exact doneFree_append _ _ h (doneFree_output l)

theorem procStdoutLines_doneFree (ls : List (List Char)) :
    ∀ st : StreamSt, doneFree st.events → doneFree (procStdoutLines st ls).events := by
  induction ls with
  | nil => intro st h; exact h
  | cons l ls ih =>
    intro st h
    exact ih _ (procStdoutLine_doneFree st l h)

theorem procStderrLines_doneFree (ls : List (List Char)) :
    ∀ st : StreamSt, doneFree st.events → doneFree (procStderrLines st ls).events := by
  induction ls with
  | nil => intro st h; exact h
  | cons l ls ih =>
    intro st h
    exact ih _ (doneFree_append _ _ h (doneFree_error l))

theorem readStream_doneFree (rem : List Char) (chunk : List Nat)
    (proc : StreamSt → List (List Char) → StreamSt) (sm : StreamSt)
    (hproc : ∀ s ls, doneFree s.events → doneFree (proc s ls).events)
    (h : doneFree sm.events) :
    ∀ rem2 sm2, readStream rem chunk proc sm = some (rem2, sm2) →
      doneFree sm2.events := by
  intro rem2 sm2 hr
  unfold readStream at hr
  split_ifs at hr with h1
  · injection hr with hr'
    injection hr' with hA hB
    exact hB ▸ h
  · cases hd : decodeUtf8 chunk with
    | none => rw [hd] at hr; exact absurd hr (by simp)
    | some s =>
      rw [hd] at hr
      simp only at hr
      injection hr with hr'
      injection hr' with hA hB
      exact hB ▸ hproc sm _ h

theorem runCycle_disc (s : LoopSt) (c : Cycle) (h : c.disconnected = true) :
    runCycle s c =
      CycleRes.stop { s with actions := s.actions ++ [PAction.terminate] }
        LoopExit.cancelled := by
  simp [runCycle, h]

theorem runCycle_abort1 (s : LoopSt) (c : Cycle) (h : c.disconnected = false)
    (h2 : readStream s.stdoutRem c.stdoutChunk procStdoutLines s.sm = none) :
    runCycle s c =
      CycleRes.stop
        { s with sm := { s.sm with events := s.sm.events ++ [Event.error streamErrorText] } }
        LoopExit.aborted := by
  simp [runCycle, h, h2]

theorem runCycle_abort2 (s : LoopSt) (c : Cycle) (rem1 : List Char) (sm1 : StreamSt)
    (h : c.disconnected = false)
    (h2 : readStream s.stdoutRem c.stdoutChunk procStdoutLines s.sm = some (rem1, sm1))
    (h3 : readStream s.stderrRem c.stderrChunk procStderrLines sm1 = none) :
    runCycle s c =
      CycleRes.stop
        { s with stdoutRem := rem1,
                 sm := { sm1 with events := sm1.events ++ [Event.error streamErrorText] } }
        LoopExit.aborted := by
  simp [runCycle, h, h2, h3]

theorem runCycle_ok (s : LoopSt) (c : Cycle) (rem1 rem2 : List Char) (sm1 sm2 : StreamSt)
    (h : c.disconnected = false)
    (h2 : readStream s.stdoutRem c.stdoutChunk procStdoutLines s.sm = some (rem1, sm1))
    (h3 : readStream s.stderrRem c.stderrChunk procStderrLines sm1 = some (rem2, sm2)) :
    runCycle s c =
      CycleRes.next { s with stdoutRem := rem1, stderrRem := rem2, sm := sm2 } := by
  simp [runCycle, h, h2, h3]

theorem runCycles_cons (s : LoopSt) (c : Cycle) (cs : List Cycle) :
    runCycles s (c :: cs) =
      match runCycle s c with
      | CycleRes.next s2 => runCycles s2 cs
      | CycleRes.stop s2 e => (s2, e) := rfl

theorem runCycles_doneFree (cs : List Cycle) :
    ∀ s : LoopSt, doneFree s.sm.events → doneFree (runCycles s cs).1.sm.events := by
  induction cs with
  | nil => intro s h; exact h
  | cons c cs ih =>
    intro s h
    rw [runCycles_cons]
    cases hd : c.disconnected with
    | true =>
      rw [runCycle_disc s c hd]
      exact h
    | false =>
      cases hso : readStream s.stdoutRem c.stdoutChunk procStdoutLines s.sm with
      | none =>
        rw [runCycle_abort1 s c hd hso]
        exact doneFree_append _ _ h (doneFree_error _)
      | some p1 =>
        obtain ⟨rem1, sm1⟩ := p1
        have hsm1 : doneFree sm1.events :=
          readStream_doneFree _ _ _ _
            (fun s' ls' h' => procStdoutLines_doneFree ls' s' h') h _ _ hso
        cases hse : readStream s.stderrRem c.stderrChunk procStderrLines sm1 with
        | none =>
          rw [runCycle_abort2 s c rem1 sm1 hd hso hse]
          exact doneFree_append _ _ hsm1 (doneFree_error _)
        | some p2 =>
          obtain ⟨rem2, sm2⟩ := p2
          have hsm2 : doneFree sm2.events :=
            readStream_doneFree _ _ _ _
              (fun s' ls' h' => procStderrLines_doneFree ls' s' h') hsm1 _ _ hse
          rw [runCycle_ok s c rem1 rem2 sm1 sm2 hd hso hse]
          exact ih _ hsm2

theorem eofFlush_doneFree (s : LoopSt) (rc : Int) (h : doneFree s.sm.events) :
    doneFree (eofFlush s rc).sm.events := by
  unfold eofFlush
  split_ifs <;>
    first
      | exact h
      | exact doneFree_append _ _ h (doneFree_output _)
      | exact doneFree_append _ _ h (doneFree_error _)
      | exact doneFree_append _ _ (doneFree_append _ _ h (doneFree_output _)) (doneFree_error _)
      | exact doneFree_append _ _ (doneFree_append _ _ h (doneFree_output _)) (doneFree_error _)
      | exact doneFree_append _ _ (doneFree_append _ _ h (doneFree_error _)) (doneFree_error _)
      | exact doneFree_append _ _
          (doneFree_append _ _ (doneFree_append _ _ h (doneFree_output _)) (doneFree_error _))
          (doneFree_error _)

theorem runStream_doneFree (cycles : List Cycle) (rc : Int) :
    doneFree (runStream cycles rc).1.sm.events := by
  unfold runStream
  have h0 : doneFree loopInit.sm.events := by
    intro e he
    simp [loopInit, streamInit] at he
  have h := runCycles_doneFree cycles loopInit h0
  cases hr : runCycles loopInit cycles with
  | mk s e =>
    rw [hr] at h
    cases e with
    | normal => exact eofFlush_doneFree s rc h
    | cancelled => exact h
    | aborted => exact h

theorem stream_tail_done (evs0 : List Event) (h : doneFree evs0) :
    (evs0 ++ [Event.done]).getLast? = some Event.done ∧
    (evs0 ++ [Event.done]).count Event.done = 1 := by
  constructor
  · rw [List.getLast?_append_of_ne_nil evs0 (by simp)]
    rfl
  · rw [List.count_append]
    have h0 : evs0.count Event.done = 0 :=
      List.count_eq_zero.mpr (fun hmem => (h _ hmem) rfl)
    simp [h0]

theorem exec_unknown {J : Type} (ext : Ext J) (env : ExecEnv J)
    (req : ScriptExecution) (w : World) (hdb : w.dbScript = none) :
    executeScriptStream ext env req w =
      ⟨ExecResponse.httpError 500, false, false, none, env, []⟩ := by
  unfold executeScriptStream
  rw [hdb]

theorem exec_write_fail {J : Type} (ext : Ext J) (env : ExecEnv J)
    (req : ScriptExecution) (w : World) (s : DbScript)
    (hdb : w.dbScript = some s) (hw : w.writeOk = false) :
    executeScriptStream ext env req w =
      ⟨ExecResponse.httpError 500, false, false,
        some (scriptPathOf req.name s.body), env, []⟩ := by
  unfold executeScriptStream
  rw [hdb]
  simp [hw]

theorem exec_chmod_fail {J : Type} (ext : Ext J) (env : ExecEnv J)
    (req : ScriptExecution) (w : World) (s : DbScript)
    (hdb : w.dbScript = some s) (hw : w.writeOk = true) (hc : w.chmodOk = false) :
    executeScriptStream ext env req w =
      ⟨ExecResponse.httpError 500, false, true,
        some (scriptPathOf req.name s.body), env, []⟩ := by
  unfold executeScriptStream
  rw [hdb]
  simp [hw, hc]

theorem exec_spawn_fail {J : Type} (ext : Ext J) (env : ExecEnv J)
    (req : ScriptExecution) (w : World) (s : DbScript)
    (hdb : w.dbScript = some s) (hw : w.writeOk = true) (hc : w.chmodOk = true)
    (hs : w.spawnOk = false) :
    executeScriptStream ext env req w =
      ⟨ExecResponse.httpError 500, false, true,
        some (scriptPathOf req.name s.body), env, []⟩ := by
  unfold executeScriptStream
  rw [hdb]
  simp [hw, hc, hs]

/-- On the full launch path the outcome is the finalization of the
streaming task's state. -/
theorem exec_main_branch {J : Type} (ext : Ext J) (env : ExecEnv J)
    (req : ScriptExecution) (w : World) (s : DbScript)
    (hdb : w.dbScript = some s) (hw : w.writeOk = true) (hc : w.chmodOk = true)
    (hs : w.spawnOk = true) :
    executeScriptStream ext env req w =
      finalizeExec ext env req (scriptPathOf req.name s.body)
        (runStream w.run.cycles w.run.exitCode).1 := by
  unfold executeScriptStream
  rw [hdb]
  simp [hw, hc, hs]

/-- Every response of the model is either an HTTP error or the queued
events followed by the single terminal `done`. -/
theorem exec_response_shape {J : Type} (ext : Ext J) (env : ExecEnv J)
    (req : ScriptExecution) (w : World) :
    (executeScriptStream ext env req w).response = ExecResponse.httpError 500 ∨
    (executeScriptStream ext env req w).response =
      ExecResponse.stream
        ((runStream w.run.cycles w.run.exitCode).1.sm.events ++ [Event.done]) := by
  cases hdb : w.dbScript with
  | none =>
    rw [exec_unknown ext env req w hdb]
    exact Or.inl rfl
  | some s =>
    by_cases hw : w.writeOk
    · by_cases hc : w.chmodOk
      · by_cases hsp : w.spawnOk
        · rw [exec_main_branch ext env req w s hdb hw hc hsp]
          cases hy : (runStream w.run.cycles w.run.exitCode).1.sm.yamlStarted with
          | false =>
            rw [finalizeExec_no_yaml ext env req _ _ hy]
            exact Or.inr rfl
          | true =>
            cases hl : ext.safeLoad (runStream w.run.cycles w.run.exitCode).1.sm.yamlBuffer with
            | none =>
              rw [finalizeExec_parse_fail ext env req _ _ hy hl]
              exact Or.inl rfl
            | some v =>
              rw [finalizeExec_parse_ok ext env req _ _ v hy hl]
              exact Or.inr rfl
        · rw [exec_spawn_fail ext env req w s hdb hw hc (by simpa using hsp)]
          exact Or.inl rfl
      · rw [exec_chmod_fail ext env req w s hdb hw (by simpa using hc)]
        exact Or.inl rfl
    · rw [exec_write_fail ext env req w s hdb (by simpa using hw)]
      exact Or.inl rfl

/-- Launch failures (unknown script, failed write, failed chmod) abort
before any spawn with an HTTP error response. -/
theorem exec_prelaunch_error {J : Type} (ext : Ext J) (env : ExecEnv J)
    (req : ScriptExecution) (w : World)
    (h : w.dbScript = none ∨ w.writeOk = false ∨ w.chmodOk = false) :
    (executeScriptStream ext env req w).spawned = false ∧
    (executeScriptStream ext env req w).response = ExecResponse.httpError 500 := by
  cases hdb : w.dbScript with
  | none =>
    rw [exec_unknown ext env req w hdb]
    exact ⟨rfl, rfl⟩
  | some s =>
    by_cases hw : w.writeOk
    · have hc : w.chmodOk = false := by
        rcases h with h | h | h
        · rw [hdb] at h; exact absurd h (by simp)
        · rw [hw] at h; exact absurd h (by simp)
        · exact h
      rw [exec_chmod_fail ext env req w s hdb hw hc]
      exact ⟨rfl, rfl⟩
    · rw [exec_write_fail ext env req w s hdb (by simpa using hw)]
      exact ⟨rfl, rfl⟩

/-- C1 (amended): when the named script is unknown or the temp script file
cannot be written or marked executable, no process is spawned and the
request fails with an HTTP error response — no event stream (and hence no
`error`/`done` event) is delivered to the consumer; and whenever an event
stream is delivered (on any path), it ends with exactly one terminal
`done` event. -/
theorem exec_launch_errors_abort_and_streams_end_in_one_done
    {J : Type} (ext : Ext J) (env : ExecEnv J) (req : ScriptExecution) (w : World) :
    ((w.dbScript = none ∨ w.writeOk = false ∨ w.chmodOk = false) →
      (executeScriptStream ext env req w).spawned = false ∧
      (executeScriptStream ext env req w).response = ExecResponse.httpError 500) ∧
    ∀ evs, (executeScriptStream ext env req w).response = ExecResponse.stream evs →
      evs.getLast? = some Event.done ∧ evs.count Event.done = 1 := by
  constructor
  · exact exec_prelaunch_error ext env req w
  · intro evs hevs
    rcases exec_response_shape ext env req w with h | h
    · rw [h] at hevs
      exact absurd hevs (by simp)
    · rw [h] at hevs
      injection hevs with h2
      subst h2
      exact stream_tail_done _ (runStream_doneFree _ _)

def extU : Ext Unit := ⟨fun _ => some (), fun _ => [], (), fun _ => []⟩

def env0 : ExecEnv Unit := ⟨[]⟩

def reqX : ScriptExecution := ⟨['x'], none, none⟩

def worldUnknown : World := ⟨none, true, true, true, ⟨[], 0⟩⟩

/-- C1 witness: at a concrete unknown-script request the launch-error part
and the terminal-`done` part of the amended claim are discharged. -/
theorem exec_launch_errors_abort_witness :
    (executeScriptStream extU env0 reqX worldUnknown).spawned = false ∧
    (executeScriptStream extU env0 reqX worldUnknown).response =
      ExecResponse.httpError 500 :=
  (exec_launch_errors_abort_and_streams_end_in_one_done extU env0 reqX worldUnknown).1
    (Or.inl rfl)

/-- C1 counterexample: for an unknown script name the request fails with
an HTTP error response and the consumer receives no event stream at all —
in particular not the claimed single `error` event followed by `done`. -/
theorem exec_unknown_script_yields_http_error_not_events :
    (executeScriptStream extU env0 reqX worldUnknown).response =
      ExecResponse.httpError 500 ∧
    ∀ evs, (executeScriptStream extU env0 reqX worldUnknown).response ≠
      ExecResponse.stream evs := by
  refine ⟨rfl, ?_⟩
  intro evs h
  have h0 : (executeScriptStream extU env0 reqX worldUnknown).response =
      ExecResponse.httpError 500 := rfl
  rw [h0] at h
  exact ExecResponse.noConfusion h

/-- C3: while streaming, every stdout line before the first line containing
the marker is emitted as an `output` event; the first marker line switches
to payload accumulation with only the text after the marker buffered; and
every later stdout line is appended to the payload buffer with no event
emitted. -/
theorem marker_splits_output_from_payload (pre post : List (List Char)) (mk : List Char)
    (hpre : ∀ l ∈ pre, containsSub yamlMarker l = false)
    (hmk : containsSub yamlMarker mk = true) :
    procStdoutLines streamInit (pre ++ mk :: post) =
      ⟨true, afterMarker yamlMarker mk ++ post.flatten, pre.flatten,
        pre.map Event.output⟩ := by
  have h1 : procStdoutLines streamInit pre =
      ⟨false, [], pre.flatten, pre.map Event.output⟩ := by
    have h := procStdoutLines_clean pre streamInit rfl hpre
    simpa [streamInit] using h
  have h2 : procStdoutLines streamInit (pre ++ mk :: post) =
      procStdoutLines (procStdoutLines streamInit pre) (mk :: post) := by
    unfold procStdoutLines
    rw [List.foldl_append]
  have h3 : procStdoutLine (⟨false, [], pre.flatten, pre.map Event.output⟩ : StreamSt) mk =
      ⟨true, afterMarker yamlMarker mk, pre.flatten, pre.map Event.output⟩ := by
    simp [procStdoutLine, hmk]
  rw [h2, h1,
    show procStdoutLines (⟨false, [], pre.flatten, pre.map Event.output⟩ : StreamSt)
        (mk :: post) =
      procStdoutLines
        (procStdoutLine (⟨false, [], pre.flatten, pre.map Event.output⟩ : StreamSt) mk)
        post from rfl,
    h3, procStdoutLines_started post _ rfl]

/-- C3 witness: a concrete three-line stdout stream around a marker line. -/
theorem marker_splits_output_from_payload_witness :
    procStdoutLines streamInit
        [['a', '\n'], ("--YAML--".toList ++ ['\n']), ['k', ':', '1', '\n']] =
      ⟨true, ['\n', 'k', ':', '1', '\n'], ['a', '\n'],
        [Event.output ['a', '\n']]⟩ := by
  have h := marker_splits_output_from_payload [['a', '\n']] [['k', ':', '1', '\n']]
    ("--YAML--".toList ++ ['\n']) (by decide) (by decide)
  simpa using h

/-- C2 counterexample: the byte string `"é\n"` (UTF-8 bytes
`[195, 169, 10]`) fed as the two reads `[195]` and `[169, 10]` raises
`UnicodeDecodeError` inside the loop and produces no line sequence, while
the same bytes fed in one read produce the single line `"é\n"` — so the
chunked and whole-string line sequences differ. -/
theorem chunked_decode_differs_from_whole :
    feedBytes [] [[195], [169, 10]] = none ∧
    feedBytes [] [[195, 169, 10]] = some ([[Char.ofNat 233, '\n']], []) ∧
    feedBytes [] [[195], [169, 10]] ≠ feedBytes [] [[195, 169, 10]] := by
  decide

/-- C2 (amended): for every byte string and every split of it into chunks
each of which decodes successfully (in particular every split at UTF-8
character boundaries, hence every split of ASCII data), feeding the chunks
one bounded read at a time yields exactly the logical lines and final
remainder of feeding the whole string in a single read; the trailing
fragment without a terminator is carried as the remainder. -/
theorem chunk_boundary_invariance (bs : List (List Nat))
    (h : ∀ c ∈ bs, (decodeUtf8 c).isSome) :
    feedBytes [] bs = feedBytes [] [bs.flatten] := by
  obtain ⟨ss, hflat, hfeed⟩ := feedBytes_sound bs h
  rw [hfeed []]
  have hR : feedBytes [] [bs.flatten] = some (feedChunk [] ss.flatten) := by
    rw [feedBytes, hflat]
    simp [feedBytes]
  rw [hR]
  congr 1
  cases ss with
  | nil => simp [feedAll, feedChunk, popRemainder, splitlines_nil]
  | cons s0 ss' =>
    rw [List.flatten_cons]
    exact feedAll_cons_join ss' [] s0

/-- C2 witness: a concrete multi-chunk feed (`"hi\n"` then `"€\n"`, the
euro sign being a three-byte character) agrees with the single-read
feed. -/
theorem chunk_boundary_invariance_witness :
    (∀ c ∈ [[104, 105, 10], [226, 130, 172, 10]], (decodeUtf8 c).isSome) ∧
    feedBytes [] [[104, 105, 10], [226, 130, 172, 10]] =
      feedBytes [] [([[104, 105, 10], [226, 130, 172, 10]] : List (List Nat)).flatten] :=
  ⟨by decide, chunk_boundary_invariance [[104, 105, 10], [226, 130, 172, 10]] (by decide)⟩

/-- The cache update an execution performs: `some r` exactly when the
execution reaches the streaming phase, accumulates a payload and
`yaml.safe_load` succeeds; `none` otherwise. Note it does not depend on
the incoming cache state. -/
def execCacheUpdate {J : Type} (ext : Ext J) (req : ScriptExecution) (w : World) :
    Option (ExecResult J) :=
  match w.dbScript with
  | none => none
  | some _ =>
    if w.writeOk && w.chmodOk && w.spawnOk then
      let ls := (runStream w.run.cycles w.run.exitCode).1
      match (streamResult ls).2 with
      | some y =>
        match ext.safeLoad y with
        | some v => some ⟨"json".toList, req.name, req.args, v, (streamResult ls).1⟩
        | none => none
      | none => none
    else none

theorem exec_env_eq {J : Type} (ext : Ext J) (env : ExecEnv J)
    (req : ScriptExecution) (w : World) :
    (executeScriptStream ext env req w).env =
      match execCacheUpdate ext req w with
      | some r => ⟨[r]⟩
      | none => env := by
  cases hdb : w.dbScript with
  | none =>
    rw [exec_unknown ext env req w hdb]
    simp [execCacheUpdate, hdb]
  | some s =>
    by_cases hw : w.writeOk
    · by_cases hc : w.chmodOk
      · by_cases hsp : w.spawnOk
        · rw [exec_main_branch ext env req w s hdb hw hc hsp]
          cases hy : (runStream w.run.cycles w.run.exitCode).1.sm.yamlStarted with
          | false =>
            rw [finalizeExec_no_yaml ext env req _ _ hy]
            simp [execCacheUpdate, hdb, hw, hc, hsp, streamResult, hy]
          | true =>
            cases hl : ext.safeLoad (runStream w.run.cycles w.run.exitCode).1.sm.yamlBuffer with
            | none =>
              rw [finalizeExec_parse_fail ext env req _ _ hy hl]
              simp [execCacheUpdate, hdb, hw, hc, hsp, streamResult, hy, hl]
            | some v =>
              rw [finalizeExec_parse_ok ext env req _ _ v hy hl]
              simp [execCacheUpdate, hdb, hw, hc, hsp, streamResult, hy, hl,
                ExecEnv.addResult]
        · rw [exec_spawn_fail ext env req w s hdb hw hc (by simpa using hsp)]
          simp [execCacheUpdate, hdb, by simpa using hsp]
      · rw [exec_chmod_fail ext env req w s hdb hw (by simpa using hc)]
        simp [execCacheUpdate, hdb, by simpa using hc]
    · rw [exec_write_fail ext env req w s hdb (by simpa using hw)]
      simp [execCacheUpdate, hdb, by simpa using hw]

/-- A sequence of requests against the process-wide cache. -/
def runSeq {J : Type} (ext : Ext J) : ExecEnv J → List (ScriptExecution × World) → ExecEnv J
  | env, [] => env
  | env, x :: xs => runSeq ext (executeScriptStream ext env x.1 x.2).env xs

theorem runSeq_append {J : Type} (ext : Ext J) (a b : List (ScriptExecution × World)) :
    ∀ env, runSeq ext env (a ++ b) = runSeq ext (runSeq ext env a) b := by
  induction a with
  | nil => intro env; rfl
  | cons x a ih =>
    intro env
    rw [List.cons_append]
    exact ih _

theorem runSeq_no_update {J : Type} (ext : Ext J)
    (xs : List (ScriptExecution × World))
    (h : ∀ y ∈ xs, execCacheUpdate ext y.1 y.2 = none) :
    ∀ env, runSeq ext env xs = env := by
  induction xs with
  | nil => intro env; rfl
  | cons x xs ih =>
    intro env
    rw [runSeq, exec_env_eq, h x (by simp)]
    exact ih (fun y hy => h y (by simp [hy])) env

theorem runSeq_len {J : Type} (ext : Ext J) (xs : List (ScriptExecution × World)) :
    ∀ env : ExecEnv J, env.results.length ≤ 1 →
      (runSeq ext env xs).results.length ≤ 1 := by
  induction xs with
  | nil => intro env h; exact h
  | cons x xs ih =>
    intro env h
    rw [runSeq, exec_env_eq]
    cases execCacheUpdate ext x.1 x.2 with
    | none => exact ih env h
    | some r => exact ih ⟨[r]⟩ (by simp)

/-- C4: the single-slot cache holds at most one result; an execution
without a valid payload leaves it untouched; and in a sequence of
executions where exactly one produces a valid payload, the final cache
holds exactly that execution's result. -/
theorem single_slot_cache_correct {J : Type} (ext : Ext J)
    (pre post : List (ScriptExecution × World)) (x : ScriptExecution × World)
    (r : ExecResult J) (env : ExecEnv J)
    (hpre : ∀ y ∈ pre, execCacheUpdate ext y.1 y.2 = none)
    (hx : execCacheUpdate ext x.1 x.2 = some r)
    (hpost : ∀ y ∈ post, execCacheUpdate ext y.1 y.2 = none) :
    runSeq ext env (pre ++ x :: post) = ⟨[r]⟩ ∧
    (∀ env2 : ExecEnv J, env2.results.length ≤ 1 →
      (runSeq ext env2 (pre ++ x :: post)).results.length ≤ 1) ∧
    ∀ (env3 : ExecEnv J) (req : ScriptExecution) (w : World),
      execCacheUpdate ext req w = none →
      (executeScriptStream ext env3 req w).env = env3 := by
  refine ⟨?_, ?_, ?_⟩
  · rw [runSeq_append, runSeq_no_update ext pre hpre env, runSeq,
      exec_env_eq, hx]
    exact runSeq_no_update ext post hpost _
  · intro env2 h2
    exact runSeq_len ext _ env2 h2
  · intro env3 req w hnone
    rw [exec_env_eq, hnone]

def dbEcho : DbScript := ⟨"echo".toList, false⟩

def worldSilent : World := ⟨some dbEcho, true, true, true, ⟨[], 0⟩⟩

def worldPayload : World :=
  ⟨some dbEcho, true, true, true,
    ⟨[⟨false, utf8Encode ("--YAML--".toList ++ ['\n']), []⟩], 0⟩⟩

/-- C4 witness: of three concrete executions only the middle one yields a
valid payload, and the final cache holds exactly its result. -/
theorem single_slot_cache_correct_witness :
    (∀ y ∈ [(reqX, worldSilent)], execCacheUpdate extU y.1 y.2 = none) ∧
    execCacheUpdate extU reqX worldPayload =
      some ⟨"json".toList, ['x'], none, (), []⟩ ∧
    runSeq extU env0 [(reqX, worldSilent), (reqX, worldPayload), (reqX, worldSilent)] =
      ⟨[⟨"json".toList, ['x'], none, (), []⟩]⟩ :=
  ⟨by decide, by decide,
    (single_slot_cache_correct extU [(reqX, worldSilent)] [(reqX, worldSilent)]
      (reqX, worldPayload) ⟨"json".toList, ['x'], none, (), []⟩ env0
      (by decide) (by decide) (by decide)).1⟩

def extUFail : Ext Unit := ⟨fun _ => none, fun _ => [], (), fun _ => []⟩

def worldBadPayload : World :=
  ⟨some dbEcho, true, true, true,
    ⟨[⟨false, utf8Encode ("--YAML--".toList ++ ['\n', '[', '\n']), []⟩], 0⟩⟩

/-- C5 (code bug): for an execution whose accumulated payload fails to
parse, the endpoint does not emit the "invalid payload" `error` event and
`done` — the parse exception escapes `yaml.safe_load` at the top level
(the `except json.JSONDecodeError` handler inside the stream task guards a
bare `return` and is dead code), so the request fails with an HTTP error
and the consumer receives no events at all; only the cache-unchanged part
of the claim holds. -/
theorem invalid_payload_http_500_no_events :
    (executeScriptStream extUFail env0 reqX worldBadPayload).response =
      ExecResponse.httpError 500 ∧
    (executeScriptStream extUFail env0 reqX worldBadPayload).env = env0 ∧
    ∀ evs, (executeScriptStream extUFail env0 reqX worldBadPayload).response ≠
      ExecResponse.stream evs := by
  refine ⟨by decide, by decide, ?_⟩
  intro evs h
  rw [show (executeScriptStream extUFail env0 reqX worldBadPayload).response =
      ExecResponse.httpError 500 by decide] at h
  exact ExecResponse.noConfusion h

theorem runCycle_no_stop_normal (s : LoopSt) (c : Cycle) (s2 : LoopSt) :
    runCycle s c ≠ CycleRes.stop s2 LoopExit.normal := by
  cases hd : c.disconnected with
  | true =>
    rw [runCycle_disc s c hd]
    simp
  | false =>
    cases hso : readStream s.stdoutRem c.stdoutChunk procStdoutLines s.sm with
    | none =>
      rw [runCycle_abort1 s c hd hso]
      simp
    | some p1 =>
      obtain ⟨rem1, sm1⟩ := p1
      cases hse : readStream s.stderrRem c.stderrChunk procStderrLines sm1 with
      | none =>
        rw [runCycle_abort2 s c rem1 sm1 hd hso hse]
        simp
      | some p2 =>
        obtain ⟨rem2, sm2⟩ := p2
        rw [runCycle_ok s c rem1 rem2 sm1 sm2 hd hso hse]
        simp

theorem runCycle_next_actions (s : LoopSt) (c : Cycle) (s2 : LoopSt)
    (h : runCycle s c = CycleRes.next s2) : s2.actions = s.actions := by
  cases hd : c.disconnected with
  | true =>
    rw [runCycle_disc s c hd] at h
    exact CycleRes.noConfusion h
  | false =>
    cases hso : readStream s.stdoutRem c.stdoutChunk procStdoutLines s.sm with
    | none =>
      rw [runCycle_abort1 s c hd hso] at h
      exact CycleRes.noConfusion h
    | some p1 =>
      obtain ⟨rem1, sm1⟩ := p1
      cases hse : readStream s.stderrRem c.stderrChunk procStderrLines sm1 with
      | none =>
        rw [runCycle_abort2 s c rem1 sm1 hd hso hse] at h
        exact CycleRes.noConfusion h
      | some p2 =>
        obtain ⟨rem2, sm2⟩ := p2
        rw [runCycle_ok s c rem1 rem2 sm1 sm2 hd hso hse] at h
        injection h with h1
        rw [← h1]

theorem runCycles_append_normal (a b : List Cycle) :
    ∀ s, (runCycles s a).2 = LoopExit.normal →
      runCycles s (a ++ b) = runCycles (runCycles s a).1 b := by
  induction a with
  | nil => intro s _; rfl
  | cons c a ih =>
    intro s hn
    rw [runCycles_cons] at hn
    rw [List.cons_append, runCycles_cons, runCycles_cons]
    cases hrc : runCycle s c with
    | next s2 =>
      rw [hrc] at hn
      exact ih s2 hn
    | stop s2 e =>
      rw [hrc] at hn
      cases e with
      | normal => exact absurd hrc (runCycle_no_stop_normal s c s2)
      | cancelled => exact absurd hn (by simp)
      | aborted => exact absurd hn (by simp)

theorem runCycles_actions_normal (cs : List Cycle) :
    ∀ s, (runCycles s cs).2 = LoopExit.normal →
      (runCycles s cs).1.actions = s.actions := by
  induction cs with
  | nil => intro s _; rfl
  | cons c cs ih =>
    intro s hn
    rw [runCycles_cons] at hn ⊢
    cases hrc : runCycle s c with
    | next s2 =>
      rw [hrc] at hn
      rw [ih s2 hn]
      exact runCycle_next_actions s c s2 hrc
    | stop s2 e =>
      rw [hrc] at hn
      cases e with
      | normal => exact absurd hrc (runCycle_no_stop_normal s c s2)
      | cancelled => exact absurd hn (by simp)
      | aborted => exact absurd hn (by simp)

theorem finalizeExec_fields {J : Type} (ext : Ext J) (env : ExecEnv J)
    (req : ScriptExecution) (path : List Char) (ls : LoopSt) :
    (finalizeExec ext env req path ls).actions = ls.actions ∧
    (finalizeExec ext env req path ls).fileExists = false ∧
    (finalizeExec ext env req path ls).tempPath = some path ∧
    (finalizeExec ext env req path ls).spawned = true := by
  cases hy : ls.sm.yamlStarted with
  | false =>
    rw [finalizeExec_no_yaml ext env req path ls hy]
    exact ⟨rfl, rfl, rfl, rfl⟩
  | true =>
    cases hl : ext.safeLoad ls.sm.yamlBuffer with
    | none =>
      rw [finalizeExec_parse_fail ext env req path ls hy hl]
      exact ⟨rfl, rfl, rfl, rfl⟩
    | some v =>
      rw [finalizeExec_parse_ok ext env req path ls v hy hl]
      exact ⟨rfl, rfl, rfl, rfl⟩

/-- C6 (amended): on consumer disconnect the streaming loop issues exactly
one `terminate()` addressed to the spawned process alone — no
process-group signal, no bounded wait, no forceful kill; unflushed
remainders are discarded rather than flushed (the demultiplexer state,
including the queued events, is exactly the pre-disconnect state); and any
delivered event stream still ends with the terminal `done`. -/
theorem disconnect_terminates_process_only {J : Type} (ext : Ext J) (env : ExecEnv J)
    (req : ScriptExecution) (w : World) (s : DbScript) (pre post : List Cycle) (c : Cycle)
    (hdb : w.dbScript = some s) (hw : w.writeOk = true) (hc : w.chmodOk = true)
    (hsp : w.spawnOk = true)
    (hcy : w.run.cycles = pre ++ c :: post)
    (hdisc : c.disconnected = true)
    (hpre : (runCycles loopInit pre).2 = LoopExit.normal) :
    (executeScriptStream ext env req w).actions = [PAction.terminate] ∧
    (runStream w.run.cycles w.run.exitCode).1.sm = (runCycles loopInit pre).1.sm ∧
    ∀ evs, (executeScriptStream ext env req w).response = ExecResponse.stream evs →
      evs = (runCycles loopInit pre).1.sm.events ++ [Event.done] := by
  have hpair : runCycles loopInit pre = ((runCycles loopInit pre).1, LoopExit.normal) := by
    rw [← hpre]
  have hrun : runStream w.run.cycles w.run.exitCode =
      ({ (runCycles loopInit pre).1 with
          actions := (runCycles loopInit pre).1.actions ++ [PAction.terminate] },
        LoopExit.cancelled) := by
    unfold runStream
    rw [hcy, runCycles_append_normal pre (c :: post) loopInit hpre, runCycles_cons,
      runCycle_disc _ c hdisc]
  have hsm : (runStream w.run.cycles w.run.exitCode).1.sm =
      (runCycles loopInit pre).1.sm := by
    rw [hrun]
  have hact : (runStream w.run.cycles w.run.exitCode).1.actions = [PAction.terminate] := by
    have ha := runCycles_actions_normal pre loopInit hpre
    rw [hrun, ha]
    rfl
  refine ⟨?_, hsm, ?_⟩
  · rw [exec_main_branch ext env req w s hdb hw hc hsp,
      (finalizeExec_fields ext env req _ _).1]
    exact hact
  · intro evs hevs
    rcases exec_response_shape ext env req w with h | h
    · rw [h] at hevs
      exact absurd hevs (by simp)
    · rw [h] at hevs
      injection hevs with h2
      subst h2
      rw [hsm]

def worldDisconnect : World := ⟨some dbEcho, true, true, true, ⟨[⟨true, [], []⟩], 0⟩⟩

/-- C6 counterexample: on cancellation of a script execution (consumer
disconnect) the backend issues only `process.terminate()` — no
process-group SIGTERM, no bounded wait, no process-group SIGKILL, contrary
to the claimed group-signal/wait/kill sequence (which belongs to the
separate fs-command cancel endpoint). -/
theorem cancellation_signals_process_not_group :
    (executeScriptStream extU env0 reqX worldDisconnect).actions = [PAction.terminate] ∧
    PAction.killpgTerm ∉ (executeScriptStream extU env0 reqX worldDisconnect).actions ∧
    PAction.waitBounded ∉ (executeScriptStream extU env0 reqX worldDisconnect).actions ∧
    PAction.killpgKill ∉ (executeScriptStream extU env0 reqX worldDisconnect).actions := by
  decide

/-- C6 witness: the amended claim discharged on a concrete disconnected
execution. -/
theorem disconnect_terminates_process_only_witness :
    (executeScriptStream extU env0 reqX worldDisconnect).actions = [PAction.terminate] ∧
    (runStream worldDisconnect.run.cycles worldDisconnect.run.exitCode).1.sm =
      (runCycles loopInit []).1.sm :=
  have h := disconnect_terminates_process_only extU env0 reqX worldDisconnect dbEcho
    [] [] ⟨true, [], []⟩ rfl rfl rfl rfl rfl rfl rfl
  ⟨h.1, h.2.1⟩

/-- C7 (amended): the temp script file is deleted on every exit of the
streaming phase — normal completion, streaming exceptions, cancellation,
regardless of payload outcome — but a launch failure after the file has
been created (chmod failure, or spawn failure) leaves the file on disk. -/
theorem temp_file_cleanup {J : Type} (ext : Ext J) (env : ExecEnv J)
    (req : ScriptExecution) (w : World) (s : DbScript)
    (hdb : w.dbScript = some s) :
    (w.writeOk = true → w.chmodOk = true → w.spawnOk = true →
      (executeScriptStream ext env req w).fileExists = false) ∧
    (w.writeOk = true → w.chmodOk = false →
      (executeScriptStream ext env req w).fileExists = true) ∧
    (w.writeOk = true → w.chmodOk = true → w.spawnOk = false →
      (executeScriptStream ext env req w).fileExists = true) := by
  refine ⟨?_, ?_, ?_⟩
  · intro hw hc hsp
    rw [exec_main_branch ext env req w s hdb hw hc hsp]
    exact (finalizeExec_fields ext env req _ _).2.1
  · intro hw hc
    rw [exec_chmod_fail ext env req w s hdb hw hc]
  · intro hw hc hsp
    rw [exec_spawn_fail ext env req w s hdb hw hc hsp]

def worldChmodFail : World := ⟨some dbEcho, true, false, true, ⟨[], 0⟩⟩

/-- C7 counterexample: when chmod fails after the temp file has been
written, the request aborts with an HTTP error and the temp script file is
not deleted — the cleanup in the stream task's `finally` never runs. -/
theorem chmod_failure_leaves_temp_file :
    (executeScriptStream extU env0 reqX worldChmodFail).fileExists = true ∧
    (executeScriptStream extU env0 reqX worldChmodFail).response =
      ExecResponse.httpError 500 := by
  decide

/-- C7 witness: a concrete successful execution ends with the temp file
removed. -/
theorem temp_file_cleanup_witness :
    (executeScriptStream extU env0 reqX worldSilent).fileExists = false :=
  (temp_file_cleanup extU env0 reqX worldSilent dbEcho rfl).1 rfl rfl rfl

/-- The events the end-of-stream branch appends before the exit-code
check: the flushed stdout remainder (unless routed to the payload buffer)
then the flushed stderr remainder. -/
def flushEvents (s : LoopSt) : List Event :=
  (if s.stdoutRem.isEmpty then []
   else if s.sm.yamlStarted then [] else [Event.output s.stdoutRem]) ++
  (if s.stderrRem.isEmpty then [] else [Event.error s.stderrRem])

theorem eofFlush_events (s : LoopSt) (rc : Int) :
    (eofFlush s rc).sm.events =
      s.sm.events ++ flushEvents s ++
        (if rc ≠ 0 then [Event.error (exitCodeMsg rc)] else []) := by
  unfold eofFlush flushEvents
  split_ifs <;> simp

/-- C8 (amended): for every execution that completes streaming normally
with a non-zero exit code, the `error` event carrying the exit code is
enqueued after any flushed unterminated remainders and immediately before
the terminal `done` — regardless of whether a payload was accumulated,
provided the payload (if any) parses; a parse failure instead aborts the
request with an HTTP error, so no event stream and no `done` are
delivered. -/
theorem nonzero_exit_error_before_done {J : Type} (ext : Ext J) (env : ExecEnv J)
    (req : ScriptExecution) (w : World) (s : DbScript)
    (hdb : w.dbScript = some s) (hw : w.writeOk = true) (hc : w.chmodOk = true)
    (hsp : w.spawnOk = true)
    (hnorm : (runCycles loopInit w.run.cycles).2 = LoopExit.normal)
    (hrc : w.run.exitCode ≠ 0)
    (hparse :
      (eofFlush (runCycles loopInit w.run.cycles).1 w.run.exitCode).sm.yamlStarted
          = false ∨
      ∃ v, ext.safeLoad
          (eofFlush (runCycles loopInit w.run.cycles).1 w.run.exitCode).sm.yamlBuffer
        = some v) :
    (executeScriptStream ext env req w).response =
      ExecResponse.stream
        ((runCycles loopInit w.run.cycles).1.sm.events ++
          flushEvents (runCycles loopInit w.run.cycles).1 ++
          [Event.error (exitCodeMsg w.run.exitCode), Event.done]) := by
  have hpair : runCycles loopInit w.run.cycles =
      ((runCycles loopInit w.run.cycles).1, LoopExit.normal) := by
    rw [← hnorm]
  have hrun : runStream w.run.cycles w.run.exitCode =
      (eofFlush (runCycles loopInit w.run.cycles).1 w.run.exitCode,
        LoopExit.normal) := by
    unfold runStream
    rw [hpair]
  have h1 : (runStream w.run.cycles w.run.exitCode).1 =
      eofFlush (runCycles loopInit w.run.cycles).1 w.run.exitCode := by
    rw [hrun]
  have hev : (eofFlush (runCycles loopInit w.run.cycles).1 w.run.exitCode).sm.events =
      (runCycles loopInit w.run.cycles).1.sm.events ++
        flushEvents (runCycles loopInit w.run.cycles).1 ++
        [Event.error (exitCodeMsg w.run.exitCode)] := by
    rw [eofFlush_events]
    simp [hrc]
  rw [exec_main_branch ext env req w s hdb hw hc hsp, h1]
  rcases hparse with hy | ⟨v, hv⟩
  · rw [finalizeExec_no_yaml ext env req _ _ hy]
    rw [hev]
    simp
  · by_cases hy : (eofFlush (runCycles loopInit w.run.cycles).1
        w.run.exitCode).sm.yamlStarted = true
    · rw [finalizeExec_parse_ok ext env req _ _ v hy hv]
      rw [hev]
      simp
    · rw [finalizeExec_no_yaml ext env req _ _ (by simpa using hy)]
      rw [hev]
      simp

def worldExit2 : World :=
  ⟨some dbEcho, true, true, true, ⟨[⟨false, [104, 105, 10], []⟩], 2⟩⟩

/-- C8 witness: a concrete no-payload execution exiting with code 2
delivers its output line, then the exit-code `error` event, then `done`. -/
theorem nonzero_exit_error_before_done_witness :
    (executeScriptStream extU env0 reqX worldExit2).response =
      ExecResponse.stream
        [Event.output ['h', 'i', '\n'], Event.error (exitCodeMsg 2), Event.done] := by
  have h := nonzero_exit_error_before_done extU env0 reqX worldExit2 dbEcho
    rfl rfl rfl rfl (by decide) (by decide) (Or.inl (by decide))
  exact h.trans (by decide)

def worldBadPayloadExit2 : World :=
  ⟨some dbEcho, true, true, true,
    ⟨[⟨false, utf8Encode ("--YAML--".toList ++ ['\n', '[', '\n']), []⟩], 2⟩⟩

/-- C8 counterexample: a non-zero-exit execution whose accumulated payload
fails to parse delivers no event stream at all (the parse exception turns
the request into an HTTP error), so the enqueued exit-code `error` event
never reaches the consumer and no `done` follows it — contrary to
"regardless of whether a structured payload was produced or parsed". -/
theorem exit_error_lost_when_parse_fails :
    (executeScriptStream extUFail env0 reqX worldBadPayloadExit2).response =
      ExecResponse.httpError 500 ∧
    ∀ evs, (executeScriptStream extUFail env0 reqX worldBadPayloadExit2).response ≠
      ExecResponse.stream evs := by
  refine ⟨by decide, ?_⟩
  intro evs h
  rw [show (executeScriptStream extUFail env0 reqX worldBadPayloadExit2).response =
      ExecResponse.httpError 500 by decide] at h
  exact ExecResponse.noConfusion h

def isLowerHexDigit (c : Char) : Bool := ("0123456789abcdef".toList).contains c

theorem hexDigitChar_lower : ∀ n < 16, isLowerHexDigit (hexDigitChar n) = true := by
  decide

theorem bytesHex_lower (bs : List Nat) : ∀ c ∈ bytesHex bs, isLowerHexDigit c = true := by
  induction bs with
  | nil =>
    intro c hc
    simp [bytesHex] at hc
  | cons b bs ih =>
    intro c hc
    simp only [bytesHex, List.map_cons, List.flatten_cons] at hc
    rcases List.mem_append.mp hc with h | h
    · simp only [byteHex, List.mem_cons, List.not_mem_nil, or_false] at h
      rcases h with h | h <;>
        (subst h; exact hexDigitChar_lower _ (Nat.mod_lt _ (by norm_num)))
    · exact ih c h

/-- C9: for a script flagged as accepting a reference, exactly two extra
argv tokens are appended after the user arguments — the fixed flag literal
`--reference`, then the lowercase-hexadecimal encoding of the UTF-8 bytes
of the JSON serialization of the cached structured payload, or of the
empty object when no result is cached. -/
theorem reference_injection_two_tokens {J : Type} (ext : Ext J) (env : ExecEnv J)
    (req : ScriptExecution) (body : List Char) :
    buildCmd ext env req ⟨body, true⟩ =
      buildCmd ext env req ⟨body, false⟩ ++ [flagToken, referenceToken ext env] ∧
    referenceToken ext env = bytesHex (utf8Encode (ext.dumps (env.getJson ext))) ∧
    (env.results = [] → env.getJson ext = ext.emptyObj) ∧
    (∀ r rs, env.results = r :: rs → env.getJson ext = r.json_result) ∧
    ∀ c ∈ referenceToken ext env, isLowerHexDigit c = true := by
  refine ⟨?_, rfl, ?_, ?_, ?_⟩
  · simp [buildCmd]
  · intro h
    simp [ExecEnv.getJson, h]
  · intro r rs h
    simp [ExecEnv.getJson, h]
  · exact bytesHex_lower _

/-- C9 witness: the two injected tokens at a concrete request and cache. -/
theorem reference_injection_two_tokens_witness :
    buildCmd extU env0 reqX ⟨"echo".toList, true⟩ =
      buildCmd extU env0 reqX ⟨"echo".toList, false⟩ ++
        [flagToken, referenceToken extU env0] ∧
    referenceToken extU env0 = bytesHex (utf8Encode (extU.dumps (env0.getJson extU))) :=
  have h := reference_injection_two_tokens extU env0 reqX "echo".toList
  ⟨h.1, h.2.1⟩

/-- C10 counterexample: two executions of the same script name with
different stored bodies materialize different temp paths — the Python
sniff inspects the body, so the path is not a function of the name
alone. -/
theorem temp_path_depends_on_body :
    scriptPathOf "x".toList "import os".toList ≠
      scriptPathOf "x".toList "echo hi".toList ∧
    scriptPathOf "x".toList "import os".toList = "/tmp/script_x.sh.py".toList ∧
    scriptPathOf "x".toList "echo hi".toList = "/tmp/script_x.sh".toList := by
  decide

/-- C10 (amended): the temp script path is a pure function of the script
name and the stored body — `/tmp/script_` plus the name plus `.sh`, with
`.py` appended when the name/body classify as Python — independent of the
arguments, the working directory, the cache and the library behavior; any
two executions with the same name and the same stored body use the same
path. -/
theorem temp_path_function_of_name_and_body {J : Type} (ext1 ext2 : Ext J)
    (env1 env2 : ExecEnv J) (req1 req2 : ScriptExecution) (w1 w2 : World)
    (s1 s2 : DbScript)
    (h1 : w1.dbScript = some s1) (h2 : w2.dbScript = some s2)
    (hname : req1.name = req2.name) (hbody : s1.body = s2.body) :
    (executeScriptStream ext1 env1 req1 w1).tempPath =
      some (scriptPathOf req1.name s1.body) ∧
    (executeScriptStream ext1 env1 req1 w1).tempPath =
      (executeScriptStream ext2 env2 req2 w2).tempPath := by
  have key : ∀ {J2 : Type} (ext : Ext J2) (env : ExecEnv J2) (req : ScriptExecution)
      (w : World) (s' : DbScript), w.dbScript = some s' →
      (executeScriptStream ext env req w).tempPath =
        some (scriptPathOf req.name s'.body) := by
    intro J2 ext env req w s' hdb
    by_cases hw : w.writeOk
    · by_cases hc : w.chmodOk
      · by_cases hsp : w.spawnOk
        · rw [exec_main_branch ext env req w s' hdb hw hc hsp]
          exact (finalizeExec_fields ext env req _ _).2.2.1
        · rw [exec_spawn_fail ext env req w s' hdb hw hc (by simpa using hsp)]
      · rw [exec_chmod_fail ext env req w s' hdb hw (by simpa using hc)]
    · rw [exec_write_fail ext env req w s' hdb (by simpa using hw)]
  refine ⟨key ext1 env1 req1 w1 s1 h1, ?_⟩
  rw [key ext1 env1 req1 w1 s1 h1, key ext2 env2 req2 w2 s2 h2, hname, hbody]

/-- C10 witness: two concrete executions of the same stored script under
different caches, library behaviors and process behaviors use the same
temp path. -/
theorem temp_path_function_witness :
    (executeScriptStream extU env0 reqX worldSilent).tempPath =
      some (scriptPathOf reqX.name dbEcho.body) ∧
    (executeScriptStream extU env0 reqX worldSilent).tempPath =
      (executeScriptStream extUFail env0 reqX worldPayload).tempPath :=
  temp_path_function_of_name_and_body extU extUFail env0 env0 reqX reqX
    worldSilent worldPayload dbEcho dbEcho rfl rfl rfl rfl

end OsGui
